import Mathlib

/-!
Verification of the NDJSON control-link programs `Sfinx.py` (laptop sender)
and `Defender.py` (Pi receiver).

The development shallowly embeds the protocol-relevant code:

* byte streams are `List Nat` (one `Nat` per byte; the newline byte is 10);
* JSON values produced by `json.loads` are the inductive `JVal`
  (Python distinguishes JSON integers from JSON floats, hence separate
  `int` and `num` constructors; floats are modelled by exact rationals);
* the receiver's frame reassembly generator `recv_lines` becomes a pure
  function from the list of successive socket chunks to the list of yielded
  (stripped) frames;
* the sender's main loop body becomes a step function on an explicit state
  record, with the wall clock passed in as a rational number, exactly as the
  code reads `time.perf_counter()` once per iteration.

`json.loads` itself is an external library call; loops that consume its
result take the decoder as an explicit function argument.
-/

/-- JSON values as returned by Python's json.loads: null, booleans,
integers, floats (modelled exactly as rationals), strings, arrays and
objects.  Objects keep the key order of the document; json.loads returns a
dict, so keys are unique. -/
inductive JVal where
  | null
  | bool (b : Bool)
  | int (z : Int)
  | num (q : ℚ)
  | str (s : String)
  | arr (elems : List JVal)
  | obj (fields : List (String × JVal))

/-- Python dict.get(k): the value at the first (unique) matching key, if any. -/
def pyGet (fs : List (String × JVal)) (k : String) : Option JVal :=
  (fs.find? (fun p => p.1 == k)).map (fun p => p.2)

/-- Python dict.get(k, d): lookup with a default. -/
def pyGetD (fs : List (String × JVal)) (k : String) (d : JVal) : JVal :=
  (pyGet fs k).getD d

/-- Python truthiness of a JSON value: None, False, 0, 0.0, empty string,
empty list and empty dict are falsy, everything else is truthy. -/
def truthy : JVal → Bool
  | JVal.null => false
  | JVal.bool b => b
  | JVal.int z => !(z == 0)
  | JVal.num q => !(q == 0)
  | JVal.str s => !(s == "")
  | JVal.arr l => !l.isEmpty
  | JVal.obj l => !l.isEmpty

/-- Python `a or b`: a if a is truthy, else b. -/
def pyOr (a b : JVal) : JVal :=
  if truthy a then a else b

/-- Whitespace characters stripped by Python's str.strip and float(str)
(ASCII subset; the inputs of this protocol are ASCII). -/
def isPySpaceChar (c : Char) : Bool :=
  c == ' ' || c == '\t' || c == '\n' || c == '\r' || c == '\x0b' || c == '\x0c'

/-- Digit run to a natural number; none if empty or a non-digit appears. -/
def digitsToNat? (cs : List Char) : Option Nat :=
  if cs.isEmpty then none
  else cs.foldl
    (fun acc c => match acc with
      | none => none
      | some n => if c.isDigit then some (n * 10 + (c.toNat - 48)) else none)
    (some 0)

/-- Python float(string) on the decimal forms: optional surrounding
whitespace, optional sign, digits with an optional fractional part, and an
optional decimal exponent.  The special forms inf/nan and underscore
separators are left out of the model (floating-point specials have no exact
rational value); no claim depends on them. -/
def parsePyFloat (s : String) : Option ℚ :=
  let cs0 := s.toList.dropWhile isPySpaceChar
  let cs := (cs0.reverse.dropWhile isPySpaceChar).reverse
  let sgnBody : ℚ × List Char :=
    match cs with
    | '+' :: r => (1, r)
    | '-' :: r => (-1, r)
    | r => (1, r)
  let body := sgnBody.2
  let mant := body.takeWhile (fun c => !(c == 'e' || c == 'E'))
  let rest := body.dropWhile (fun c => !(c == 'e' || c == 'E'))
  let expVal : Option Int :=
    match rest with
    | [] => some 0
    | _ :: r =>
      match r with
      | '+' :: r2 => (digitsToNat? r2).map (fun n => (n : Int))
      | '-' :: r2 => (digitsToNat? r2).map (fun n => -(n : Int))
      | r2 => (digitsToNat? r2).map (fun n => (n : Int))
  let ip := mant.takeWhile (fun c => !(c == '.'))
  let rest2 := mant.dropWhile (fun c => !(c == '.'))
  let fr : List Char := match rest2 with
    | [] => []
    | _ :: r => r
  if ip.isEmpty && fr.isEmpty then none
  else
    let ipVal : Option Nat := if ip.isEmpty then some 0 else digitsToNat? ip
    let frVal : Option Nat := if fr.isEmpty then some 0 else digitsToNat? fr
    match ipVal, frVal, expVal with
    | some i, some f, some e =>
      some (sgnBody.1 * ((i : ℚ) + (f : ℚ) / (10 : ℚ) ^ fr.length) * (10 : ℚ) ^ e)
    | _, _, _ => none

/-- Python float(val) applied to the result of a dict lookup: None (absent
key or JSON null), lists and dicts raise; booleans convert to 0/1; numbers
convert to themselves; strings are parsed. -/
def pyFloat : Option JVal → Option ℚ
  | none => none
  | some JVal.null => none
  | some (JVal.bool b) => some (if b then 1 else 0)
  | some (JVal.int z) => some (z : ℚ)
  | some (JVal.num q) => some q
  | some (JVal.str s) => parsePyFloat s
  | some (JVal.arr _) => none
  | some (JVal.obj _) => none

/-- Round a nonnegative rational to the nearest integer, ties to even, as
Python's float formatting does. -/
def roundHE (x : ℚ) : Int :=
  let n := ⌊x⌋
  let r := x - (n : ℚ)
  if 1 / 2 < r then n + 1
  else if r < 1 / 2 then n
  else if n % 2 = 0 then n else n + 1

/-- Zero-pad a value below 1000 to three digits. -/
def pad3 (k : Nat) : String :=
  if k < 10 then "00" ++ toString k
  else if k < 100 then "0" ++ toString k
  else toString k

/-- Render a scaled magnitude n (thousandths) as the digit string d.ddd. -/
def fmt1000 (n : Nat) : String :=
  toString (n / 1000) ++ "." ++ pad3 (n % 1000)

/-- Python format string f with three decimal places applied to an exact
rational value. -/
def fmtFixed3 (q : ℚ) : String :=
  if q < 0 then "-" ++ fmt1000 (roundHE (-q * 1000)).toNat
  else fmt1000 (roundHE (q * 1000)).toNat

/-- Defender.py fmt_float (lines 78-82): try float(val) and format with
three decimal places, and on any conversion failure return the sentinel
string na.  The argument is the raw result of the dict lookup (None when
the key was absent). -/
def fmt_float (val : Option JVal) : String :=
  match pyFloat val with
  | some q => fmtFixed3 q
  | none => "na"

/-- Defender.py pressed_buttons (lines 84-87): non-dict arguments give the
dash placeholder; otherwise the comma-joined names of truthy buttons, or
the dash when that join is empty. -/
def pressed_buttons (v : JVal) : String :=
  match v with
  | JVal.obj fs =>
    let j := String.intercalate "," ((fs.filter (fun p => truthy p.2)).map (fun p => p.1))
    if j == "" then "-" else j
  | _ => "-"

/-- Values interpolated into the line that Defender.py build_line
(lines 89-113) formats: the string assembly itself is abstracted, the
fields below are exactly the interpolated expressions. -/
structure LineView where
  mtype : JVal
  seq : JVal
  ts : JVal
  lx : String
  ly : String
  rx : String
  ry : String
  lt : String
  rt : String
  dx : JVal
  dy : JVal
  btns : String

/-- Defender.py build_line (lines 89-113).  none models an uncaught
exception: msg.get requires a dict, and axes.get / dpad.get raise
AttributeError when the axes or dpad field holds a truthy non-dict value
(falsy values are replaced by the empty dict through the or-default). -/
def build_line (msg : JVal) : Option LineView :=
  match msg with
  | JVal.obj fs =>
    let axesV := pyOr (pyGetD fs "axes" (JVal.obj [])) (JVal.obj [])
    let dpadV := pyOr (pyGetD fs "dpad" (JVal.obj [])) (JVal.obj [])
    match axesV, dpadV with
    | JVal.obj axs, JVal.obj dps =>
      some
        { mtype := pyGetD fs "type" (JVal.str "?")
          seq := pyGetD fs "seq" (JVal.str "")
          ts := pyGetD fs "ts" (JVal.str "")
          lx := fmt_float (pyGet axs "lx")
          ly := fmt_float (pyGet axs "ly")
          rx := fmt_float (pyGet axs "rx")
          ry := fmt_float (pyGet axs "ry")
          lt := fmt_float (pyGet axs "lt")
          rt := fmt_float (pyGet axs "rt")
          dx := pyGetD dps "x" (JVal.int 0)
          dy := pyGetD dps "y" (JVal.int 0)
          btns := pressed_buttons (pyGetD fs "buttons" (JVal.obj [])) }
    | _, _ => none
  | _ => none

/-- Defender.py recv_lines inner loop (lines 123-128): repeatedly find the
first newline byte in the buffer, cut off the prefix before it as one
frame, and delete the consumed prefix including the newline; stop when no
newline is left.  Returns the frames found and the remaining buffer. -/
def extractLines (l : List Nat) : List (List Nat) × List Nat :=
  if h : 10 ∈ l then
    let line := l.takeWhile (fun b => b != 10)
    let rest := (l.dropWhile (fun b => b != 10)).tail
    let p := extractLines rest
    (line :: p.1, p.2)
  else ([], l)
termination_by l.length
decreasing_by
  have h1 : (l.dropWhile (fun b => b != 10)).length ≤ l.length :=
    (List.dropWhile_suffix (fun b => b != 10)).length_le
  have h2 : l.dropWhile (fun b => b != 10) ≠ [] := by
    intro hc
    have hall := List.dropWhile_eq_nil_iff.mp hc 10 h
    simp at hall
  have h3 : 0 < (l.dropWhile (fun b => b != 10)).length := List.length_pos.mpr h2
  simp only [List.length_tail]
  omega

/-- Defender.py recv_lines outer loop (lines 118-132): consume the socket
chunks one recv at a time, maintaining the carry-over buffer.  The chunk
list holds the successive recv results; a closed connection is the end of
the list, and an empty chunk is the zero-byte read that also stops the
loop.  Returns the yielded raw frames and the final (discarded) buffer. -/
def recvLoop : List (List Nat) → List Nat → List (List Nat) × List Nat
  | [], buf => ([], buf)
  | c :: cs, buf =>
    if c = [] then ([], buf)
    else
      let p := extractLines (buf ++ c)
      let q := recvLoop cs p.2
      (p.1 ++ q.1, q.2)

/-- Whitespace bytes removed by str.strip (ASCII subset; frames of this
protocol are ASCII, and UTF-8 decoding with replacement is the identity on
them, so the decode step of line 130 is the identity here). -/
def isPySpace (b : Nat) : Bool :=
  b == 32 || b == 9 || b == 10 || b == 13 || b == 11 || b == 12

/-- Python str.strip on a frame: drop whitespace from both ends. -/
def pyStrip (l : List Nat) : List Nat :=
  (l.dropWhile isPySpace).rdropWhile isPySpace

/-- Defender.py recv_lines (lines 115-132) end to end: the stripped frames
yielded for a given list of socket chunks. -/
def recv_lines (chunks : List (List Nat)) : List (List Nat) :=
  ((recvLoop chunks []).1).map pyStrip

/-- Observable actions of the per-message part of Defender.py
handle_client: a bad-json warning carrying the offending line, the
dispatch of one decoded message, and an ack written back. -/
inductive REvent where
  | warn (line : List Nat)
  | dispatch (m : JVal)
  | ack (v : JVal)

/-- Defender.py handle_client dispatch of one decoded message
(lines 147-162).  none models an exception escaping the loop body: .get on
a non-dict decode result raises AttributeError, and printing build_line
raises when build_line does (both are uncaught there and end the
connection).  The input branch appends an ack carrying msg.get with key
seq (null when absent) when acks are enabled; the heartbeat and unknown
branches only print, which the event list records as the dispatch itself
(show_heartbeats toggles printing, not processing). -/
def lineEvents (sh ak : Bool) (m : JVal) : Option (List REvent) :=
  match m with
  | JVal.obj fs =>
    match pyGet fs "type" with
    | some (JVal.str t) =>
      if t = "input" then
        match build_line (JVal.obj fs) with
        | some _ =>
          some (REvent.dispatch (JVal.obj fs) ::
            (if ak then [REvent.ack (pyGetD fs "seq" JVal.null)] else []))
        | none => none
      else some [REvent.dispatch (JVal.obj fs)]
    | _ => some [REvent.dispatch (JVal.obj fs)]
  | _ => none

/-- Defender.py handle_client line loop (lines 138-162) over the stripped
frames, with the json decoder passed in as a function: empty lines are
skipped, lines the decoder rejects produce one warning and the loop
continues, decoded messages produce their dispatch events.  The Bool is
true when an uncaught exception ended the loop early. -/
def handleLines (d : List Nat → Option JVal) (sh ak : Bool) :
    List (List Nat) → List REvent × Bool
  | [] => ([], false)
  | l :: ls =>
    if l = [] then handleLines d sh ak ls
    else
      match d l with
      | none =>
        let p := handleLines d sh ak ls
        (REvent.warn l :: p.1, p.2)
      | some m =>
        match lineEvents sh ak m with
        | none => ([], true)
        | some es =>
          let p := handleLines d sh ak ls
          (es ++ p.1, p.2)

/-- Sfinx.py ControlClient.next_seq (lines 100-102): increment and wrap the
session counter; the bitwise AND with 0xFFFFFFFF is reduction mod 2^32. -/
def next_seq (s : Nat) : Nat :=
  (s + 1) % 2 ^ 32

/-- Sender-loop state of Sfinx.py run (lines 271-309): whether
control.sock is set, the session counter, and the last_send / last_any
clock readings. -/
structure SState where
  connected : Bool
  seq : Nat
  last_send : ℚ
  last_any : ℚ
  deriving DecidableEq

/-- One emitted control message: an input sample or a heartbeat, carrying
the seq value assigned by next_seq. -/
inductive Emit where
  | inp (seq : Nat)
  | hb (seq : Nat)
  deriving DecidableEq

/-- Sequence number carried by an emitted message. -/
def emitSeq : Emit → Nat
  | Emit.inp n => n
  | Emit.hb n => n

/-- One iteration of the Sfinx.py run loop (lines 287-309), given the
enable_control flag, the current state, this iteration's
time.perf_counter() reading, and whether the socket write (if one happens)
succeeds; a failed write makes send_json_line close the socket
(lines 104-112).  POLL_HZ is 60 and HEARTBEAT_MS is 500 (lines 71-72). -/
def senderStep (ec : Bool) (s : SState) (now : ℚ) (ok : Bool) : SState × Option Emit :=
  if ec = true ∧ s.connected = true ∧ 1 / 60 ≤ now - s.last_send then
    ({ connected := ok, seq := next_seq s.seq, last_send := now, last_any := now },
      some (Emit.inp (next_seq s.seq)))
  else if ec = true ∧ s.connected = true ∧ 500 ≤ (now - s.last_any) * 1000 then
    ({ connected := ok, seq := next_seq s.seq, last_send := s.last_send, last_any := now },
      some (Emit.hb (next_seq s.seq)))
  else (s, none)

/-- The run loop iterated over a list of (clock reading, write outcome)
pairs: the emitted messages in order, and the final state. -/
def senderRun (ec : Bool) : SState → List (ℚ × Bool) → List Emit × SState
  | s, [] => ([], s)
  | s, i :: ins =>
    let p := senderStep ec s i.1 i.2
    let q := senderRun ec p.1 ins
    (p.2.toList ++ q.1, q.2)

/-- Recognizer for warning events. -/
def isWarn : REvent → Bool
  | REvent.warn _ => true
  | _ => false

/-- Recognizer for message-dispatch events. -/
def isDispatch : REvent → Bool
  | REvent.dispatch _ => true
  | _ => false

/-- Concrete input message of the specification: type input, seq 7, axes
lx 0.5 and ly -0.2 as JSON floats, rx ry lt as JSON integers 0, rt as JSON
float 1.0, buttons a pressed and b released, dpad x 0 and y -1. -/
def exampleMsg : JVal :=
  JVal.obj
    [("type", JVal.str "input"),
     ("seq", JVal.int 7),
     ("ts", JVal.str "2024-01-01T00:00:00Z"),
     ("axes", JVal.obj
       [("lx", JVal.num (1 / 2)), ("ly", JVal.num (-1 / 5)),
        ("rx", JVal.int 0), ("ry", JVal.int 0),
        ("lt", JVal.int 0), ("rt", JVal.num 1)]),
     ("buttons", JVal.obj [("a", JVal.int 1), ("b", JVal.int 0)]),
     ("dpad", JVal.obj [("x", JVal.int 0), ("y", JVal.int (-1))]),
     ("meta", JVal.obj [])]

/-- Dropping a while-prefix never lengthens a list. -/
theorem dropWhile_length_le (p : Nat → Bool) (l : List Nat) :
    (l.dropWhile p).length ≤ l.length := by
  induction l with
  | nil => simp
  | cons x xs ih =>
    rw [List.dropWhile_cons]
    by_cases h : p x = true
    · simp [h]; omega
    · simp [h]

/-- A list containing an element on which the predicate fails has a
nonempty while-drop. -/
theorem dropWhile_ne_nil_of_mem (a : Nat) (l : List Nat) (h : a ∈ l) :
    l.dropWhile (fun b => b != a) ≠ [] := by
  induction l with
  | nil => cases h
  | cons x xs ih =>
    rw [List.dropWhile_cons]
    by_cases hx : x = a
    · simp [hx]
    · have : (x != a) = true := by simp [hx]
      simp only [this, if_true]
      rcases List.mem_cons.mp h with h1 | h2
      · exact absurd h1.symm hx
      · exact ih h2

/-- Appending past a fully satisfying prefix: takeWhile keeps the whole
prefix and continues in the suffix. -/
theorem takeWhile_append_all (p : Nat → Bool) (m l : List Nat)
    (h : ∀ x ∈ m, p x = true) :
    (m ++ l).takeWhile p = m ++ l.takeWhile p := by
  induction m with
  | nil => simp
  | cons x xs ih =>
    have hx : p x = true := h x (List.mem_cons_self x xs)
    simp only [List.cons_append, List.takeWhile_cons, hx, if_true]
    rw [ih (fun y hy => h y (List.mem_cons_of_mem x hy))]

/-- Appending past a fully satisfying prefix: dropWhile removes the whole
prefix and continues in the suffix. -/
theorem dropWhile_append_all (p : Nat → Bool) (m l : List Nat)
    (h : ∀ x ∈ m, p x = true) :
    (m ++ l).dropWhile p = l.dropWhile p := by
  induction m with
  | nil => simp
  | cons x xs ih =>
    have hx : p x = true := h x (List.mem_cons_self x xs)
    simp only [List.cons_append, List.dropWhile_cons, hx, if_true]
    exact ih (fun y hy => h y (List.mem_cons_of_mem x hy))

/-- When the predicate already fails inside the first list, takeWhile never
reaches the appended suffix. -/
theorem takeWhile_append_stop (p : Nat → Bool) (m l : List Nat)
    (h : ∃ x ∈ m, p x = false) :
    (m ++ l).takeWhile p = m.takeWhile p := by
  induction m with
  | nil => rcases h with ⟨x, hx, _⟩; cases hx
  | cons y ys ih =>
    by_cases hy : p y = true
    · simp only [List.cons_append, List.takeWhile_cons, hy, if_true]
      rcases h with ⟨x, hx, hpx⟩
      rcases List.mem_cons.mp hx with h1 | h2
      · rw [h1] at hpx; rw [hy] at hpx; cases hpx
      · rw [ih ⟨x, h2, hpx⟩]
    · have hy' : p y = false := Bool.eq_false_iff.mpr hy
      simp [List.takeWhile_cons, hy']

/-- When the predicate already fails inside the first list, dropWhile stops
inside it and the suffix is carried over unchanged. -/
theorem dropWhile_append_stop (p : Nat → Bool) (m l : List Nat)
    (h : ∃ x ∈ m, p x = false) :
    (m ++ l).dropWhile p = m.dropWhile p ++ l := by
  induction m with
  | nil => rcases h with ⟨x, hx, _⟩; cases hx
  | cons y ys ih =>
    by_cases hy : p y = true
    · simp only [List.cons_append, List.dropWhile_cons, hy, if_true]
      rcases h with ⟨x, hx, hpx⟩
      rcases List.mem_cons.mp hx with h1 | h2
      · rw [h1] at hpx; rw [hy] at hpx; cases hpx
      · exact ih ⟨x, h2, hpx⟩
    · have hy' : p y = false := Bool.eq_false_iff.mpr hy
      simp [List.dropWhile_cons, hy']

/-- Dropping up to the first newline lands exactly on a newline byte. -/
theorem dropWhile_nl_head (l : List Nat) (h : 10 ∈ l) :
    ∃ d, l.dropWhile (fun b => b != 10) = 10 :: d := by
  induction l with
  | nil => cases h
  | cons x xs ih =>
    by_cases hx : x = 10
    · subst hx
      refine ⟨xs, ?_⟩
      simp [List.dropWhile_cons]
    · have hx' : (x != 10) = true := by simp [hx]
      rw [List.dropWhile_cons, if_pos hx']
      rcases List.mem_cons.mp h with h1 | h2
      · exact absurd h1.symm hx
      · exact ih h2

/-- Unfolding extractLines when the buffer holds a newline. -/
theorem extractLines_pos (l : List Nat) (h : 10 ∈ l) :
    extractLines l =
      ((l.takeWhile (fun b => b != 10)) ::
        (extractLines ((l.dropWhile (fun b => b != 10)).tail)).1,
       (extractLines ((l.dropWhile (fun b => b != 10)).tail)).2) := by
  rw [extractLines]
  simp [h]

/-- Unfolding extractLines when the buffer holds no newline. -/
theorem extractLines_neg (l : List Nat) (h : ¬ 10 ∈ l) :
    extractLines l = ([], l) := by
  rw [extractLines]
  simp [h]

/-- Incremental frame extraction is confluent with appending input: the
frames of a ++ b are the frames of a followed by the frames of a's
leftover joined with b, with the leftover of that second pass. -/
theorem extractLines_append (a b : List Nat) :
    extractLines (a ++ b) =
      ((extractLines a).1 ++ (extractLines ((extractLines a).2 ++ b)).1,
       (extractLines ((extractLines a).2 ++ b)).2) := by
  induction a using extractLines.induct with
  | case1 l h rest ih =>
    have hmem : 10 ∈ l ++ b := List.mem_append_left b h
    have hw : ∃ x ∈ l, (fun c => c != 10) x = false := ⟨10, h, by simp⟩
    rcases dropWhile_nl_head l h with ⟨d, hd⟩
    have htk : (l ++ b).takeWhile (fun c => c != 10) = l.takeWhile (fun c => c != 10) :=
      takeWhile_append_stop _ l b hw
    have hdr : (l ++ b).dropWhile (fun c => c != 10) = l.dropWhile (fun c => c != 10) ++ b :=
      dropWhile_append_stop _ l b hw
    rw [extractLines_pos (l ++ b) hmem, extractLines_pos l h, htk, hdr, hd]
    simp only [List.cons_append, List.tail_cons]
    have hrest : rest = d := by
      have hr : rest = (List.dropWhile (fun b => b != 10) l).tail := rfl
      rw [hr, hd]
      rfl
    rw [hrest] at ih
    rw [ih]
  | case2 l h =>
    rw [extractLines_neg l h]
    simp

/-- Feeding two nonempty chunks one after the other yields the same result
as feeding their concatenation at once. -/
theorem recvLoop_merge (c1 c2 : List Nat) (cs : List (List Nat)) (buf : List Nat)
    (h1 : c1 ≠ []) (h2 : c2 ≠ []) :
    recvLoop (c1 :: c2 :: cs) buf = recvLoop ((c1 ++ c2) :: cs) buf := by
  have h12 : c1 ++ c2 ≠ [] := fun hc => h1 (List.append_eq_nil.mp hc).1
  simp only [recvLoop, if_neg h1, if_neg h2, if_neg h12]
  rw [← List.append_assoc buf c1 c2, extractLines_append (buf ++ c1) c2]
  simp [List.append_assoc]

/-- A single newline-terminated message is extracted as exactly one frame
with an empty leftover. -/
theorem extractLines_single (m : List Nat) (h : ¬ 10 ∈ m) :
    extractLines (m ++ [10]) = ([m], []) := by
  have hmem : 10 ∈ m ++ [10] := List.mem_append_right m (by simp)
  have hall : ∀ x ∈ m, (fun b => b != 10) x = true := by
    intro x hx
    have : x ≠ 10 := fun he => h (he ▸ hx)
    simp [this]
  rw [extractLines_pos (m ++ [10]) hmem]
  rw [takeWhile_append_all _ m [10] hall, dropWhile_append_all _ m [10] hall]
  have ht : List.takeWhile (fun b => b != 10) [10] = [] := by simp [List.takeWhile_cons]
  have hdp : List.dropWhile (fun b => b != 10) [10] = [10] := by simp [List.dropWhile_cons]
  rw [ht, hdp]
  simp [extractLines_neg [] (by simp)]

/-- C1: feeding the receiver's frame reassembly one encoded
newline-terminated message split into two chunks at any interior byte
offset yields exactly the one frame that feeding the whole byte string at
once yields (the message body, stripped as recv_lines strips every
yielded line). -/
theorem recv_lines_split_invariant (m : List Nat) (i : Nat)
    (hnl : ¬ 10 ∈ m) (h0 : 0 < i) (hi : i < (m ++ [10]).length) :
    recv_lines [(m ++ [10]).take i, (m ++ [10]).drop i] = recv_lines [m ++ [10]] ∧
    recv_lines [m ++ [10]] = [pyStrip m] := by
  have hs : m ++ [10] ≠ [] := fun hc => by simpa using congrArg List.length hc
  have htk : (m ++ [10]).take i ≠ [] := by
    intro hc
    rcases List.take_eq_nil_iff.mp hc with h | h
    · omega
    · exact hs h
  have hdr : (m ++ [10]).drop i ≠ [] := by
    intro hc
    have := List.drop_eq_nil_iff.mp hc
    omega
  constructor
  · unfold recv_lines
    rw [recvLoop_merge _ _ [] [] htk hdr, List.take_append_drop]
  · unfold recv_lines
    simp only [recvLoop, if_neg hs, List.append_nil, List.nil_append]
    rw [extractLines_single m hnl]
    simp [recvLoop]

/-- Witness for C1 at the concrete message byte 97 split at offset 1. -/
theorem recv_lines_split_invariant_witness :
    recv_lines [([97] ++ [10]).take 1, ([97] ++ [10]).drop 1] = recv_lines [[97] ++ [10]] ∧
    recv_lines [[97] ++ [10]] = [pyStrip [97]] :=
  recv_lines_split_invariant [97] 1 (by decide) (by decide) (by decide)

/-- Every frame cut out by extractLines is newline-free. -/
theorem extractLines_frames_no_nl (l : List Nat) :
    ∀ f ∈ (extractLines l).1, ¬ 10 ∈ f := by
  induction l using extractLines.induct with
  | case1 l h rest ih =>
    rw [extractLines_pos l h]
    intro f hf
    rcases List.mem_cons.mp hf with h1 | h2
    · subst h1
      intro hmem
      have := List.mem_takeWhile_imp hmem
      simp at this
    · exact ih f h2
  | case2 l h =>
    rw [extractLines_neg l h]
    intro f hf
    cases hf

/-- The leftover buffer after extractLines is newline-free. -/
theorem extractLines_rem_no_nl (l : List Nat) :
    ¬ 10 ∈ (extractLines l).2 := by
  induction l using extractLines.induct with
  | case1 l h rest ih =>
    rw [extractLines_pos l h]
    exact ih
  | case2 l h =>
    rw [extractLines_neg l h]
    exact h

/-- The frames, each with its newline terminator restored, followed by the
leftover buffer, reconstitute the input exactly. -/
theorem extractLines_join (l : List Nat) :
    ((extractLines l).1.map (fun f => f ++ [10])).flatten ++ (extractLines l).2 = l := by
  induction l using extractLines.induct with
  | case1 l h rest ih =>
    rcases dropWhile_nl_head l h with ⟨d, hd⟩
    have hrest : rest = d := by
      have hr : rest = (List.dropWhile (fun b => b != 10) l).tail := rfl
      rw [hr, hd]
      rfl
    rw [hrest] at ih
    rw [extractLines_pos l h, hd]
    simp only [List.tail_cons, List.map_cons, List.flatten_cons, List.append_assoc]
    rw [ih]
    conv_rhs => rw [← List.takeWhile_append_dropWhile (p := fun b => b != 10) (l := l), hd]
    rfl
  | case2 l h =>
    rw [extractLines_neg l h]
    simp

/-- Every frame the receive loop yields is newline-free. -/
theorem recvLoop_frames_no_nl (cs : List (List Nat)) :
    ∀ buf, ∀ f ∈ (recvLoop cs buf).1, ¬ 10 ∈ f := by
  induction cs with
  | nil =>
    intro buf f hf
    cases hf
  | cons c cs ih =>
    intro buf f hf
    by_cases hc : c = []
    · simp [recvLoop, hc] at hf
    · simp only [recvLoop, if_neg hc] at hf
      rcases List.mem_append.mp hf with h1 | h2
      · exact extractLines_frames_no_nl (buf ++ c) f h1
      · exact ih _ f h2

/-- The final buffer of the receive loop is newline-free. -/
theorem recvLoop_rem_no_nl (cs : List (List Nat)) :
    ∀ buf, ¬ 10 ∈ buf → ¬ 10 ∈ (recvLoop cs buf).2 := by
  induction cs with
  | nil =>
    intro buf hb
    exact hb
  | cons c cs ih =>
    intro buf hb
    by_cases hc : c = []
    · simpa [recvLoop, hc] using hb
    · simp only [recvLoop, if_neg hc]
      exact ih _ (extractLines_rem_no_nl (buf ++ c))

/-- The yielded frames with their terminators restored, followed by the
final buffer, reconstitute the carry-over buffer and all received bytes,
provided no chunk is the zero-byte read that ends the loop. -/
theorem recvLoop_join (cs : List (List Nat)) :
    ∀ buf, (∀ c ∈ cs, c ≠ []) →
    ((recvLoop cs buf).1.map (fun f => f ++ [10])).flatten ++ (recvLoop cs buf).2 =
      buf ++ cs.flatten := by
  induction cs with
  | nil =>
    intro buf _
    simp [recvLoop]
  | cons c cs ih =>
    intro buf h
    have hc : c ≠ [] := h c (List.mem_cons_self c cs)
    simp only [recvLoop, if_neg hc, List.map_append, List.flatten_append, List.flatten_cons,
      List.append_assoc]
    rw [ih _ (fun x hx => h x (List.mem_cons_of_mem c hx))]
    rw [← List.append_assoc, extractLines_join (buf ++ c), List.append_assoc]

/-- C8: the reassembly yields only newline-terminated frames.  For every
chunk sequence (each chunk a nonempty recv result, the end of the list
being the peer close), each yielded frame is newline-free and the received
bytes are exactly the yielded frames, each followed by its newline, plus a
newline-free tail that stays in the buffer and is discarded at close,
never delivered. -/
theorem recv_lines_discards_incomplete (chunks : List (List Nat))
    (h : ∀ c ∈ chunks, c ≠ []) :
    (∀ f ∈ (recvLoop chunks []).1, ¬ 10 ∈ f) ∧
    ¬ 10 ∈ (recvLoop chunks []).2 ∧
    ((recvLoop chunks []).1.map (fun f => f ++ [10])).flatten ++ (recvLoop chunks []).2 =
      chunks.flatten := by
  refine ⟨recvLoop_frames_no_nl chunks [], recvLoop_rem_no_nl chunks [] (by simp), ?_⟩
  simpa using recvLoop_join chunks [] h

/-- Witness for C8 on the chunk byte-97, newline, byte-98: one frame is
yielded and the trailing undelimited byte 98 stays in the buffer. -/
theorem recv_lines_discards_incomplete_witness :
    (∀ f ∈ (recvLoop [[97, 10, 98]] []).1, ¬ 10 ∈ f) ∧
    ¬ 10 ∈ (recvLoop [[97, 10, 98]] []).2 ∧
    ((recvLoop [[97, 10, 98]] []).1.map (fun f => f ++ [10])).flatten ++
      (recvLoop [[97, 10, 98]] []).2 = [[97, 10, 98]].flatten :=
  recv_lines_discards_incomplete [[97, 10, 98]] (by decide)

/-- Stripping absorbs a trailing carriage return: the byte 13 is
whitespace for str.strip. -/
theorem pyStrip_append_cr (m : List Nat) :
    pyStrip (m ++ [13]) = pyStrip m := by
  unfold pyStrip
  by_cases h : m.dropWhile isPySpace = []
  · have hall : ∀ x ∈ m, isPySpace x = true := List.dropWhile_eq_nil_iff.mp h
    rw [dropWhile_append_all _ m [13] hall, h]
    have h13 : List.dropWhile isPySpace [13] = [] := by decide
    rw [h13]
  · have hex : ∃ x ∈ m, isPySpace x = false := by
      by_contra hc
      push_neg at hc
      exact h (List.dropWhile_eq_nil_iff.mpr (fun x hx => by
        have := hc x hx
        simpa using this))
    rw [dropWhile_append_stop _ m [13] hex]
    exact List.rdropWhile_concat_pos isPySpace _ 13 (by decide)

/-- Stripping a line of pure whitespace leaves the empty line. -/
theorem pyStrip_all_space (w : List Nat) (h : ∀ b ∈ w, isPySpace b = true) :
    pyStrip w = [] := by
  unfold pyStrip
  rw [List.dropWhile_eq_nil_iff.mpr h]
  simp [List.rdropWhile]

/-- A list is dropWhile-stable whenever some extension of it by appending
is dropWhile-stable. -/
theorem dropWhile_eq_self_of_append (p : Nat → Bool) (S u A : List Nat)
    (hu : S ++ u = A) (hA : A.dropWhile p = A) : S.dropWhile p = S := by
  subst hu
  cases S with
  | nil => simp
  | cons x xs =>
    rw [List.cons_append, List.dropWhile_cons] at hA
    by_cases hx : p x = true
    · rw [if_pos hx] at hA
      have hle := dropWhile_length_le p (xs ++ u)
      have hlen := congrArg List.length hA
      simp at hlen
      simp only [List.length_append] at hle
      omega
    · rw [List.dropWhile_cons, if_neg hx]

/-- Stripping is idempotent. -/
theorem pyStrip_idem (l : List Nat) :
    pyStrip (pyStrip l) = pyStrip l := by
  unfold pyStrip
  set A := l.dropWhile isPySpace with hA
  set S := A.rdropWhile isPySpace with hS
  have hAfix : A.dropWhile isPySpace = A := List.dropWhile_idempotent isPySpace l
  have hSfix : S.rdropWhile isPySpace = S := by
    rw [hS]
    exact List.rdropWhile_idempotent isPySpace A
  have hpre : ∃ u, S ++ u = A := by
    rcases (List.dropWhile_suffix isPySpace :
        A.reverse.dropWhile isPySpace <:+ A.reverse) with ⟨t, ht⟩
    refine ⟨t.reverse, ?_⟩
    have hrev := congrArg List.reverse ht
    simpa [hS, List.rdropWhile] using hrev
  rcases hpre with ⟨u, hu⟩
  rw [dropWhile_eq_self_of_append isPySpace S u A hu hAfix, hSfix]

/-- C10: every yielded frame is stripped before parsing.  First, a line
terminated by carriage return plus newline is reassembled into the same
stripped frame as the same line terminated by a bare newline.  Second, a
whitespace-only line strips to the empty line, which the dispatch loop
skips silently: no warning, no dispatch, no effect at all.  Third,
stripping a frame recv_lines yielded changes nothing, because every
yielded frame is already stripped. -/
theorem frames_stripped_before_parse :
    (∀ m : List Nat, ¬ 10 ∈ m →
      recv_lines [m ++ [13, 10]] = recv_lines [m ++ [10]]) ∧
    (∀ (d : List Nat → Option JVal) (sh ak : Bool) (w : List Nat) (ls : List (List Nat)),
      (∀ b ∈ w, isPySpace b = true) →
      handleLines d sh ak (pyStrip w :: ls) = handleLines d sh ak ls) ∧
    (∀ (chunks : List (List Nat)) (f : List Nat), f ∈ recv_lines chunks →
      pyStrip f = f) := by
  refine ⟨?_, ?_, ?_⟩
  · intro m hm
    have hcr : ¬ 10 ∈ m ++ [13] := by
      intro hmem
      rcases List.mem_append.mp hmem with h1 | h2
      · exact hm h1
      · simp at h2
    have hne1 : m ++ [13, 10] ≠ [] := fun hc => by simpa using congrArg List.length hc
    have hne2 : m ++ [10] ≠ [] := fun hc => by simpa using congrArg List.length hc
    unfold recv_lines
    simp only [recvLoop, if_neg hne1, if_neg hne2, List.nil_append, List.append_nil]
    have hsplit : m ++ [13, 10] = (m ++ [13]) ++ [10] := by simp
    rw [hsplit, extractLines_single (m ++ [13]) hcr, extractLines_single m hm]
    simp [recvLoop, pyStrip_append_cr]
  · intro d sh ak w ls hw
    rw [pyStrip_all_space w hw]
    simp [handleLines]
  · intro chunks f hf
    unfold recv_lines at hf
    rcases List.mem_map.mp hf with ⟨g, _, hg⟩
    rw [← hg]
    exact pyStrip_idem g

/-- Witness for C10 on the one-byte line 97: the carriage-return form and
the bare-newline form reassemble identically. -/
theorem frames_stripped_before_parse_witness :
    recv_lines [[97] ++ [13, 10]] = recv_lines [[97] ++ [10]] :=
  frames_stripped_before_parse.1 [97] (by decide)

/-- Dispatching one decoded message that the loop survives produces
exactly one dispatch event and no warning. -/
theorem lineEvents_counts (sh ak : Bool) (m : JVal) (es : List REvent)
    (h : lineEvents sh ak m = some es) :
    es.countP isDispatch = 1 ∧ es.countP isWarn = 0 := by
  cases m with
  | obj fs =>
    simp only [lineEvents] at h
    rcases ht : pyGet fs "type" with _ | v
    · rw [ht] at h
      simp at h
      rw [← h]
      simp [List.countP_cons, List.countP_nil, isDispatch, isWarn]
    · rw [ht] at h
      cases v with
      | str t =>
        by_cases hti : t = "input"
        · subst hti
          rcases hb : build_line (JVal.obj fs) with _ | view
          · simp [hb] at h
          · simp [hb] at h
            rw [← h]
            cases ak <;>
              simp [List.countP_cons, List.countP_nil, isDispatch, isWarn]
        · simp [hti] at h
          rw [← h]
          simp [List.countP_cons, List.countP_nil, isDispatch, isWarn]
      | null =>
        simp at h
        rw [← h]
        simp [List.countP_cons, List.countP_nil, isDispatch, isWarn]
      | bool b =>
        simp at h
        rw [← h]
        simp [List.countP_cons, List.countP_nil, isDispatch, isWarn]
      | int z =>
        simp at h
        rw [← h]
        simp [List.countP_cons, List.countP_nil, isDispatch, isWarn]
      | num q =>
        simp at h
        rw [← h]
        simp [List.countP_cons, List.countP_nil, isDispatch, isWarn]
      | arr l =>
        simp at h
        rw [← h]
        simp [List.countP_cons, List.countP_nil, isDispatch, isWarn]
      | obj l =>
        simp at h
        rw [← h]
        simp [List.countP_cons, List.countP_nil, isDispatch, isWarn]
  | null => cases h
  | bool b => cases h
  | int z => cases h
  | num q => cases h
  | str s => cases h
  | arr l => cases h

/-- A run of nonempty lines that all decode and dispatch cleanly is
consumed completely: no crash, no warnings, one dispatch per line. -/
theorem handleLines_all_ok (d : List Nat → Option JVal) (sh ak : Bool)
    (ls : List (List Nat))
    (h : ∀ l ∈ ls, l ≠ [] ∧ ∃ m es, d l = some m ∧ lineEvents sh ak m = some es) :
    (handleLines d sh ak ls).2 = false ∧
    (handleLines d sh ak ls).1.countP isWarn = 0 ∧
    (handleLines d sh ak ls).1.countP isDispatch = ls.length := by
  induction ls with
  | nil => simp [handleLines]
  | cons l ls ih =>
    rcases h l (List.mem_cons_self l ls) with ⟨hne, m, es, hd, he⟩
    have ihh := ih (fun x hx => h x (List.mem_cons_of_mem l hx))
    simp only [handleLines, if_neg hne, hd, he]
    rcases lineEvents_counts sh ak m es he with ⟨hd1, hw0⟩
    refine ⟨ihh.1, ?_, ?_⟩
    · rw [List.countP_append, hw0, ihh.2.1]
    · rw [List.countP_append, hd1, ihh.2.2]
      simp [List.length_cons, Nat.add_comm]

/-- C2: a stream whose frames are one undecodable line followed by lines
that decode to messages the dispatch survives is fully consumed: the loop
does not crash (the connection stays in its read loop until end of
stream), exactly one warning is printed for the undecodable line, and
exactly one message per following line is dispatched. -/
theorem malformed_line_resilience (d : List Nat → Option JVal) (sh ak : Bool)
    (bad : List Nat) (goods : List (List Nat))
    (hbad : bad ≠ [] ∧ d bad = none)
    (hgood : ∀ l ∈ goods, l ≠ [] ∧ ∃ m es, d l = some m ∧ lineEvents sh ak m = some es) :
    (handleLines d sh ak (bad :: goods)).2 = false ∧
    (handleLines d sh ak (bad :: goods)).1.countP isWarn = 1 ∧
    (handleLines d sh ak (bad :: goods)).1.countP isDispatch = goods.length := by
  rcases hbad with ⟨hne, hdec⟩
  have hrest := handleLines_all_ok d sh ak goods hgood
  simp only [handleLines, if_neg hne, hdec]
  refine ⟨hrest.1, ?_, ?_⟩
  · rw [List.countP_cons]
    simp [isWarn, hrest.2.1]
  · rw [List.countP_cons]
    simp [isDispatch, hrest.2.2]

/-- Witness for C2 with a concrete decoder: the line byte-98 is rejected,
the line byte-104 decodes to a heartbeat object. -/
theorem malformed_line_resilience_witness :
    ((handleLines
        (fun l => if l = [104] then some (JVal.obj [("type", JVal.str "heartbeat")]) else none)
        false false ([98] :: [[104]])).2 = false) ∧
    ((handleLines
        (fun l => if l = [104] then some (JVal.obj [("type", JVal.str "heartbeat")]) else none)
        false false ([98] :: [[104]])).1.countP isWarn = 1) ∧
    ((handleLines
        (fun l => if l = [104] then some (JVal.obj [("type", JVal.str "heartbeat")]) else none)
        false false ([98] :: [[104]])).1.countP isDispatch = [[104]].length) :=
  malformed_line_resilience
    (fun l => if l = [104] then some (JVal.obj [("type", JVal.str "heartbeat")]) else none)
    false false [98] [[104]]
    ⟨by decide, by simp⟩
    (by
      intro l hl
      simp only [List.mem_singleton] at hl
      subst hl
      refine ⟨by decide, JVal.obj [("type", JVal.str "heartbeat")],
        [REvent.dispatch (JVal.obj [("type", JVal.str "heartbeat")])], by simp, ?_⟩
      rfl)

/-- C7: with acks enabled, the dispatch of a decoded object writes back an
ack exactly when the message's type field is the string input, and that
ack carries msg.get of key seq (null when absent); with acks disabled no
ack is ever written.  Heartbeat and unknown types never produce an ack. -/
theorem ack_iff_input_type :
    (∀ (sh : Bool) (fs : List (String × JVal)) (es : List REvent),
      lineEvents sh true (JVal.obj fs) = some es →
      ((∃ v, REvent.ack v ∈ es) ↔ pyGet fs "type" = some (JVal.str "input")) ∧
      (∀ v, REvent.ack v ∈ es → v = pyGetD fs "seq" JVal.null)) ∧
    (∀ (sh : Bool) (fs : List (String × JVal)) (es : List REvent),
      lineEvents sh false (JVal.obj fs) = some es →
      ∀ v, REvent.ack v ∉ es) := by
  constructor
  · intro sh fs es h
    simp only [lineEvents] at h
    rcases ht : pyGet fs "type" with _ | v
    · rw [ht] at h
      simp at h
      rw [← h]
      simp
    · rw [ht] at h
      cases v with
      | str t =>
        by_cases hti : t = "input"
        · subst hti
          rcases hb : build_line (JVal.obj fs) with _ | view
          · simp [hb] at h
          · simp [hb] at h
            rw [← h]
            constructor
            · simp
            · intro v hv
              simp at hv
              exact hv
        · simp [hti] at h
          rw [← h]
          simp [Option.some_inj]
          intro hc
          exact absurd hc hti
      | null => simp at h; rw [← h]; simp
      | bool b => simp at h; rw [← h]; simp
      | int z => simp at h; rw [← h]; simp
      | num q => simp at h; rw [← h]; simp
      | arr l => simp at h; rw [← h]; simp
      | obj l => simp at h; rw [← h]; simp
  · intro sh fs es h v
    simp only [lineEvents] at h
    rcases ht : pyGet fs "type" with _ | w
    · rw [ht] at h
      simp at h
      rw [← h]
      simp
    · rw [ht] at h
      cases w with
      | str t =>
        by_cases hti : t = "input"
        · subst hti
          rcases hb : build_line (JVal.obj fs) with _ | view
          · simp [hb] at h
          · simp [hb] at h
            rw [← h]
            simp
        · simp [hti] at h
          rw [← h]
          simp
      | null => simp at h; rw [← h]; simp
      | bool b => simp at h; rw [← h]; simp
      | int z => simp at h; rw [← h]; simp
      | num q => simp at h; rw [← h]; simp
      | arr l => simp at h; rw [← h]; simp
      | obj l => simp at h; rw [← h]; simp

/-- Witness for C7 on a concrete input message with seq 7: the ack fires
and carries seq 7. -/
theorem ack_iff_input_type_witness :
    ((∃ v, REvent.ack v ∈
        [REvent.dispatch (JVal.obj [("type", JVal.str "input"), ("seq", JVal.int 7)]),
         REvent.ack (JVal.int 7)]) ↔
      pyGet [("type", JVal.str "input"), ("seq", JVal.int 7)] "type" =
        some (JVal.str "input")) ∧
    (∀ v, REvent.ack v ∈
        [REvent.dispatch (JVal.obj [("type", JVal.str "input"), ("seq", JVal.int 7)]),
         REvent.ack (JVal.int 7)] →
      v = pyGetD [("type", JVal.str "input"), ("seq", JVal.int 7)] "seq" JVal.null) :=
  ack_iff_input_type.1 false [("type", JVal.str "input"), ("seq", JVal.int 7)]
    [REvent.dispatch (JVal.obj [("type", JVal.str "input"), ("seq", JVal.int 7)]),
     REvent.ack (JVal.int 7)] rfl

/-- C3: in one iteration of the sender loop, an input sample is sent
exactly when the loop is enabled, the socket is up, and at least 1/60 s
elapsed since the last send; a heartbeat is emitted exactly when no input
was sent, the socket is up, and the idle time since the last activity is
at least 500 ms; and a heartbeat updates only the last-activity time,
leaving the last-send time untouched.  The two characterizations are
mutually exclusive, so an iteration that sends an input never also emits a
heartbeat. -/
theorem sender_heartbeat_suppression (ec ok : Bool) (s : SState) (now : ℚ) :
    ((senderStep ec s now ok).2 = some (Emit.inp (next_seq s.seq)) ↔
      (ec = true ∧ s.connected = true ∧ 1 / 60 ≤ now - s.last_send)) ∧
    ((senderStep ec s now ok).2 = some (Emit.hb (next_seq s.seq)) ↔
      (ec = true ∧ s.connected = true ∧ ¬(1 / 60 ≤ now - s.last_send) ∧
        500 ≤ (now - s.last_any) * 1000)) ∧
    ((senderStep ec s now ok).2 = some (Emit.hb (next_seq s.seq)) →
      (senderStep ec s now ok).1.last_send = s.last_send ∧
      (senderStep ec s now ok).1.last_any = now) := by
  by_cases h1 : ec = true ∧ s.connected = true ∧ 1 / 60 ≤ now - s.last_send
  · simp only [senderStep, if_pos h1]
    refine ⟨⟨fun _ => h1, fun _ => by trivial⟩, ?_, ?_⟩
    · simp only [Option.some.injEq]
      constructor
      · intro hc
        cases hc
      · intro hc
        exact absurd h1.2.2 hc.2.2.1
    · intro hc
      simp at hc
  · by_cases h2 : ec = true ∧ s.connected = true ∧ 500 ≤ (now - s.last_any) * 1000
    · simp only [senderStep, if_neg h1, if_pos h2]
      refine ⟨?_, ?_, ?_⟩
      · simp only [Option.some.injEq]
        constructor
        · intro hc
          cases hc
        · intro hc
          exact absurd hc h1
      · constructor
        · intro _
          refine ⟨h2.1, h2.2.1, ?_, h2.2.2⟩
          intro hc
          exact h1 ⟨h2.1, h2.2.1, hc⟩
        · intro _
          trivial
      · intro _
        exact ⟨by trivial, by trivial⟩
    · simp only [senderStep, if_neg h1, if_neg h2]
      refine ⟨?_, ?_, ?_⟩
      · constructor
        · intro hc
          cases hc
        · intro hc
          exact absurd hc h1
      · constructor
        · intro hc
          cases hc
        · intro hc
          exact absurd ⟨hc.1, hc.2.1, hc.2.2.2⟩ h2
      · intro hc
        cases hc

/-- Witness for C3: a connected state whose last send was 1/1000 s ago
(under the 1/60 s rate gate) and whose last activity was 1 s ago emits a
heartbeat with the next sequence number. -/
theorem sender_heartbeat_suppression_witness :
    (senderStep true { connected := true, seq := 0, last_send := 999 / 1000, last_any := 0 }
        1 true).2 =
      some (Emit.hb (next_seq 0)) :=
  (sender_heartbeat_suppression true true
      { connected := true, seq := 0, last_send := 999 / 1000, last_any := 0 } 1).2.1.mpr
    ⟨rfl, rfl, by norm_num, by norm_num⟩

/-- One sender iteration either emits nothing and leaves the state alone,
or emits one message carrying next_seq of the current counter and advances
the counter to exactly that value. -/
theorem senderStep_seq (ec ok : Bool) (s : SState) (now : ℚ) :
    ((senderStep ec s now ok).2 = none ∧ (senderStep ec s now ok).1 = s) ∨
    (∃ e, (senderStep ec s now ok).2 = some e ∧ emitSeq e = next_seq s.seq ∧
      (senderStep ec s now ok).1.seq = next_seq s.seq) := by
  unfold senderStep
  by_cases h1 : ec = true ∧ s.connected = true ∧ 1 / 60 ≤ now - s.last_send
  · right
    rw [if_pos h1]
    exact ⟨Emit.inp (next_seq s.seq), rfl, rfl, rfl⟩
  · by_cases h2 : ec = true ∧ s.connected = true ∧ 500 ≤ (now - s.last_any) * 1000
    · right
      rw [if_neg h1, if_pos h2]
      exact ⟨Emit.hb (next_seq s.seq), rfl, rfl, rfl⟩
    · left
      rw [if_neg h1, if_neg h2]
      exact ⟨rfl, rfl⟩

/-- Advancing the wrapped counter commutes with reduction mod 2^32. -/
theorem next_seq_mod (a : Nat) : next_seq (a % 2 ^ 32) = next_seq a := by
  unfold next_seq
  conv_rhs => rw [← Nat.mod_add_mod]

/-- The seq values emitted along any run are the consecutive wrapped
successors of the starting counter. -/
theorem senderRun_seqs (ec : Bool) (ins : List (ℚ × Bool)) :
    ∀ s : SState,
      ((senderRun ec s ins).1).map emitSeq =
        (List.range ((senderRun ec s ins).1).length).map
          (fun j => (s.seq + j + 1) % 2 ^ 32) := by
  induction ins with
  | nil =>
    intro s
    simp [senderRun]
  | cons i ins ih =>
    intro s
    rcases senderStep_seq ec i.2 s i.1 with ⟨he, hs⟩ | ⟨e, he, hese, hs⟩
    · simp only [senderRun, he, hs, Option.toList_none, List.nil_append]
      exact ih s
    · simp only [senderRun, he, Option.toList_some, List.cons_append, List.nil_append,
        List.map_cons, List.length_cons, List.range_succ_eq_map, List.map_map]
      have ihs := ih (senderStep ec s i.1 i.2).1
      rw [ihs]
      congr 1
      apply List.map_congr_left
      intro j _
      simp only [Function.comp_apply, hs]
      unfold next_seq
      rw [Nat.add_assoc, Nat.mod_add_mod]
      congr 1
      omega

/-- C4: within one session the counter starts at zero and every emitted
message, input and heartbeat alike, carries the next wrapped counter
value: the k-th emitted seq is (k+1) mod 2^32, consecutive emitted seqs
differ by exactly one mod 2^32 (no gaps), and any two emissions fewer than
2^32 apart carry distinct seqs (no repeats). -/
theorem sender_seq_monotone (s0 : SState) (h0 : s0.seq = 0) (ins : List (ℚ × Bool)) :
    (((senderRun true s0 ins).1).map emitSeq =
      (List.range ((senderRun true s0 ins).1).length).map (fun j => (j + 1) % 2 ^ 32)) ∧
    (∀ i, i + 1 < ((senderRun true s0 ins).1).length →
      (((senderRun true s0 ins).1).map emitSeq).getD (i + 1) 0 =
        ((((senderRun true s0 ins).1).map emitSeq).getD i 0 + 1) % 2 ^ 32) ∧
    (∀ i j, i < j → j < ((senderRun true s0 ins).1).length → j < i + 2 ^ 32 →
      (((senderRun true s0 ins).1).map emitSeq).getD i 0 ≠
        (((senderRun true s0 ins).1).map emitSeq).getD j 0) := by
  have hseqs := senderRun_seqs true ins s0
  rw [h0] at hseqs
  simp only [Nat.zero_add] at hseqs
  have hget : ∀ i, i < ((senderRun true s0 ins).1).length →
      (((senderRun true s0 ins).1).map emitSeq).getD i 0 = (i + 1) % 2 ^ 32 := by
    intro i hi
    rw [hseqs]
    rw [List.getD_eq_getElem?_getD, List.getElem?_map, List.getElem?_range hi]
    rfl
  refine ⟨hseqs, ?_, ?_⟩
  · intro i hi
    rw [hget (i + 1) hi, hget i (by omega)]
    rw [Nat.mod_add_mod]
  · intro i j hij hj hwin
    rw [hget i (by omega), hget j hj]
    intro hc
    have hmod : (i + 1) % 2 ^ 32 = (j + 1) % 2 ^ 32 := hc
    have hdvd : 2 ^ 32 ∣ (j + 1) - (i + 1) :=
      (Nat.modEq_iff_dvd' (by omega)).mp hmod
    have hpos : 0 < (j + 1) - (i + 1) := by omega
    have hle := Nat.le_of_dvd hpos hdvd
    omega

/-- Witness for C4: a connected zero-counter state run for two
always-sending iterations emits seqs 1 and 2. -/
theorem sender_seq_monotone_witness :
    ((senderRun true { connected := true, seq := 0, last_send := -1, last_any := 0 }
        [(0, true), (1, true)]).1).map emitSeq =
      (List.range ((senderRun true { connected := true, seq := 0, last_send := -1, last_any := 0 }
        [(0, true), (1, true)]).1).length).map (fun j => (j + 1) % 2 ^ 32) :=
  (sender_seq_monotone { connected := true, seq := 0, last_send := -1, last_any := 0 }
    rfl [(0, true), (1, true)]).1

/-- C5 counterexample: after a failure closes the socket, the sender loop
never re-establishes it.  Concretely, from a disconnected state (the state
send_json_line leaves behind after a SendError, or connect leaves behind
after a ConnectError) three further iterations at times when the peer
would accept every write emit nothing and leave the state unchanged — no
backoff, no connect retry, no resumed sends. -/
theorem sender_no_reconnect_counterexample :
    senderRun true { connected := false, seq := 5, last_send := 0, last_any := 0 }
        [(1, true), (2, true), (3, true)] =
      ([], { connected := false, seq := 5, last_send := 0, last_any := 0 }) := by
  decide

/-- C5 amended: the sender has no reconnect path at all.  Once the
connection is down, every future iteration of the loop emits nothing and
leaves the state untouched, whatever the clock readings and however
willing the peer would be. -/
theorem sender_disconnected_stays_silent (s : SState) (h : s.connected = false)
    (ins : List (ℚ × Bool)) :
    senderRun true s ins = ([], s) := by
  induction ins with
  | nil => simp [senderRun]
  | cons i ins ih =>
    have hstep : senderStep true s i.1 i.2 = (s, none) := by
      unfold senderStep
      rw [if_neg, if_neg]
      · intro hc
        rw [h] at hc
        cases hc.2.1
      · intro hc
        rw [h] at hc
        cases hc.2.1
    simp only [senderRun, hstep, Option.toList_none, List.nil_append]
    exact ih

/-- Witness for the amended C5 at a concrete disconnected state and input
trace. -/
theorem sender_disconnected_stays_silent_witness :
    senderRun true { connected := false, seq := 7, last_send := 0, last_any := 0 }
        [(4, true), (5, true)] =
      ([], { connected := false, seq := 7, last_send := 0, last_any := 0 }) :=
  sender_disconnected_stays_silent
    { connected := false, seq := 7, last_send := 0, last_any := 0 } rfl
    [(4, true), (5, true)]

/-- C9: decoding is defensive.  A decodable input message whose nested
axes, dpad and buttons objects are all absent still builds a line, with
every axis at the sentinel na, both dpad components defaulted to the
integer 0, and the dash button placeholder.  A present axes object whose
lx entry is absent or not convertible to a number degrades that axis to
na without aborting.  And the specification's concrete example message
renders lx as 0.500, pressed-button set a, and dpad (0, -1). -/
theorem build_line_defensive :
    (∀ fs : List (String × JVal),
      pyGet fs "axes" = none → pyGet fs "dpad" = none → pyGet fs "buttons" = none →
      ∃ v, build_line (JVal.obj fs) = some v ∧
        v.lx = "na" ∧ v.ly = "na" ∧ v.rx = "na" ∧ v.ry = "na" ∧ v.lt = "na" ∧ v.rt = "na" ∧
        v.dx = JVal.int 0 ∧ v.dy = JVal.int 0 ∧ v.btns = "-") ∧
    (∀ (fs : List (String × JVal)) (axs : List (String × JVal)),
      pyGet fs "axes" = some (JVal.obj axs) → pyGet fs "dpad" = none →
      pyFloat (pyGet axs "lx") = none →
      ∃ v, build_line (JVal.obj fs) = some v ∧ v.lx = "na") ∧
    (((build_line exampleMsg).map LineView.lx = some "0.500") ∧
      ((build_line exampleMsg).map LineView.btns = some "a") ∧
      ((build_line exampleMsg).map LineView.dx = some (JVal.int 0)) ∧
      ((build_line exampleMsg).map LineView.dy = some (JVal.int (-1)))) := by
  refine ⟨?_, ?_, ?_⟩
  · intro fs hax hdp hbt
    simp only [build_line, pyGetD, hax, hdp, hbt, Option.getD_none, pyOr, truthy,
      List.isEmpty_nil, Bool.not_true, Bool.false_eq_true, if_false]
    exact ⟨_, rfl, rfl, rfl, rfl, rfl, rfl, rfl, rfl, rfl, rfl⟩
  · intro fs axs hax hdp hlx
    simp only [build_line, pyGetD, hax, hdp, Option.getD_none, Option.getD_some, pyOr]
    by_cases htr : truthy (JVal.obj axs) = true
    · simp only [htr, if_true]
      refine ⟨_, rfl, ?_⟩
      simp only [fmt_float, hlx]
    · simp only [Bool.not_eq_true] at htr
      simp only [htr, Bool.false_eq_true, if_false, truthy, List.isEmpty_nil,
        Bool.not_true]
      have haxs : axs = [] := by
        have h3 : (!axs.isEmpty) = false := htr
        have h4 : axs.isEmpty = true := by
          revert h3
          cases axs.isEmpty <;> simp
        exact List.isEmpty_iff.mp h4
      subst haxs
      exact ⟨_, rfl, rfl⟩
  · refine ⟨?_, rfl, rfl, rfl⟩
    have hred : (build_line exampleMsg).map LineView.lx = some (fmtFixed3 (1 / 2)) := rfl
    rw [hred]
    have hv : fmtFixed3 ((1 : ℚ) / 2) = "0.500" := by
      unfold fmtFixed3
      rw [if_neg (by norm_num : ¬ ((1 : ℚ) / 2) < 0)]
      have hr : roundHE ((1 : ℚ) / 2 * 1000) = 500 := by
        unfold roundHE
        norm_num
      rw [hr]
      rfl
    rw [hv]

/-- Witness for C9 on a message whose axes object maps lx to null: the
line builds and lx degrades to the sentinel. -/
theorem build_line_defensive_witness :
    ∃ v, build_line (JVal.obj [("axes", JVal.obj [("lx", JVal.null)])]) = some v ∧
      v.lx = "na" :=
  build_line_defensive.2.1 [("axes", JVal.obj [("lx", JVal.null)])] [("lx", JVal.null)]
    rfl rfl rfl
